import Mathlib

set_option maxHeartbeats 1000000

/-!
Shallow embedding of `cargo-shuttle/src/config.rs` (the layered configuration
resolver and the error-log batching pipeline) together with proofs of the
frozen claims about it.

Rust strings are modelled as Lean `String` (a structure over `List Char`);
machine-integer parsing (`str::parse::<i64>`, `str::parse::<u16>`) is modelled
with explicit range checks; fallible Rust code returns `Except`/sum types, and
a Rust panic is modelled as an explicit `panic` outcome so that claims about
panics are statable.
-/

namespace Spec2Proof

/-! Models of Rust integer parsing: an optional sign followed by one or more
ASCII digits, rejecting the value on overflow of the target width. -/

def digitVal (c : Char) : Option Nat :=
  if '0' ≤ c ∧ c ≤ '9' then some (c.toNat - '0'.toNat) else none

def digitsValAux (acc : Nat) : List Char → Option Nat
  | [] => some acc
  | c :: cs =>
    match digitVal c with
    | some d => digitsValAux (acc * 10 + d) cs
    | none => none

def digitsVal (cs : List Char) : Option Nat :=
  match cs with
  | [] => none
  | _ => digitsValAux 0 cs

def i64MaxNat : Nat := 9223372036854775807

def i64MinAbs : Nat := 9223372036854775808

/-- Model of Rust `str::parse::<i64>`: optional `+`/`-` sign, then ASCII
digits; empty or out-of-range input is a parse failure. -/
def parseI64 (s : String) : Option Int :=
  match s.data with
  | '+' :: cs =>
    match digitsVal cs with
    | some n => if n ≤ i64MaxNat then some (n : Int) else none
    | none => none
  | '-' :: cs =>
    match digitsVal cs with
    | some n => if n ≤ i64MinAbs then some (-(n : Int)) else none
    | none => none
  | cs =>
    match digitsVal cs with
    | some n => if n ≤ i64MaxNat then some (n : Int) else none
    | none => none

def u16Max : Nat := 65535

/-- Model of Rust `str::parse::<u16>`: optional `+` sign (no minus), then
ASCII digits; empty or out-of-range input is a parse failure. -/
def parseU16 (s : String) : Option Nat :=
  match s.data with
  | '+' :: cs =>
    match digitsVal cs with
    | some n => if n ≤ u16Max then some n else none
    | none => none
  | cs =>
    match digitsVal cs with
    | some n => if n ≤ u16Max then some n else none
    | none => none

/-! Range of timestamps representable by chrono `DateTime::from_timestamp`:
from `-262144-01-01T00:00:00Z` through `262143-12-31T23:59:59Z` in the
proleptic Gregorian calendar (chrono year bounds are `i32::MIN >> 13` and
`i32::MAX >> 13`); outside it `from_timestamp` returns `None` and the
`.unwrap()` in `ErrorLog::try_new` panics. -/

def chronoMinTs : Int := -8334632851200

def chronoMaxTs : Int := 8210298412799

/-- A string on which `if s.parse::<i64>().is_ok() then s.parse::<u16>().unwrap()`
panics: it parses as `i64` but not as `u16`. -/
def u16Trap (s : String) : Bool := (parseI64 s).isSome && (parseU16 s).isNone

/-! Model of Rust `str::split("||")` (leftmost-first, keeps empty pieces) and
`Vec::join("||")`, at the level of character lists. -/

def consHead (c : Char) : List (List Char) → List (List Char)
  | [] => [[c]]
  | f :: fs => (c :: f) :: fs

def splitPP : List Char → List (List Char)
  | [] => [[]]
  | '|' :: '|' :: rest => [] :: splitPP rest
  | c :: rest => consHead c (splitPP rest)

def joinPP : List (List Char) → List Char
  | [] => []
  | [f] => f
  | f :: g :: fs => f ++ '|' :: '|' :: joinPP (g :: fs)

def splitFields (s : String) : List String :=
  (splitPP s.data).map (fun cs => String.mk cs)

def joinFields (fs : List String) : String :=
  String.mk (joinPP (fs.map String.data))

/-- The first `||`-separated field of a line (`split` always yields at least
one piece, so Rust `thing[0]` never goes out of bounds). -/
def field0 (line : String) : String :=
  (splitFields line).headD ""

/-- The decoded form of one log line (`ErrorLog` in `config.rs`); `datetime`
holds the timestamp in seconds, as recovered by `.timestamp()`. -/
structure ErrorLog where
  raw : String
  datetime : Int
  error_type : String
  error_code : Option String
  error_message : String
  file_source : Option String
  file_line : Option Nat
  file_col : Option Nat
  deriving DecidableEq

/-- Outcome of `ErrorLog::try_new`: `ok`, a returned decode error (`bail!`),
or a Rust panic (index out of bounds, `DateTime::from_timestamp(..).unwrap()`,
or the `parse::<u16>().unwrap()`). -/
inductive TryNewResult where
  | ok (log : ErrorLog)
  | err (msg : String)
  | panic (msg : String)
  deriving DecidableEq

def oobPanicMsg : String := "index out of bounds"

def datetimePanicMsg : String := "DateTime from_timestamp returned None"

def u16PanicMsg : String := "u16 parse unwrap failed"

def i64ErrMsg : String := "Expected i64-compatible string"

/-- Model of `ErrorLog::try_new`, following the evaluation order of the Rust
function: index 0 is read first (out-of-bounds panic on an empty vector), the
timestamp parse failure is a returned error, the `from_timestamp` unwrap runs
before fields 1..6 are indexed, `file_line` (index 5, with its inner `u16`
unwrap) is evaluated before `file_col` (index 6). -/
def tryNew (input : List String) : TryNewResult :=
  if input.length = 0 then .panic oobPanicMsg
  else
    match parseI64 (input.headD "") with
    | none => .err i64ErrMsg
    | some t =>
      if t < chronoMinTs ∨ chronoMaxTs < t then .panic datetimePanicMsg
      else if input.length < 6 then .panic oobPanicMsg
      else if u16Trap (input.getD 5 "") then .panic u16PanicMsg
      else if input.length < 7 then .panic oobPanicMsg
      else if u16Trap (input.getD 6 "") then .panic u16PanicMsg
      else .ok {
        raw := joinFields input
        datetime := t
        error_type := input.getD 1 ""
        error_code := if input.getD 2 "" = "none" then none else some (input.getD 2 "")
        error_message := input.getD 3 ""
        file_source := if input.getD 4 "" = "none" then none else some (input.getD 4 "")
        file_line := if (parseI64 (input.getD 5 "")).isSome then parseU16 (input.getD 5 "") else none
        file_col := if (parseI64 (input.getD 6 "")).isSome then parseU16 (input.getD 6 "") else none }

def TryNewResult.isPanic : TryNewResult → Bool
  | .panic _ => true
  | _ => false

/-- Decoding one raw line: split on the delimiter, then `try_new`; `some` only
on full success. -/
def decodeLine (line : String) : Option ErrorLog :=
  match tryNew (splitFields line) with
  | .ok log => some log
  | _ => none

def decodes (line : String) : Bool := (decodeLine line).isSome

/-- The timestamp field of a raw line, as the batch-boundary check reads it
(`thing[0].parse::<i64>()`). -/
def lineTs (line : String) : Option Int := parseI64 (field0 line)

/-- Outcome of batch extraction: the record list, a returned `anyhow` error,
or a Rust panic (one of the `.unwrap()` / `.expect()` calls firing). -/
inductive FetchResult where
  | ok (logs : List ErrorLog)
  | err (msg : String)
  | panic (msg : String)
  deriving DecidableEq

/-- The `cargo shuttle explain` guidance error for a wholly empty log file
(apostrophes and backticks of the original literal elided). -/
def noLogsMsg : String := "There is currently no logs that can be used with cargo shuttle explain. Once you have accumulated some errors from using the CLI, you will be able to send errors from your last command invocation using cargo shuttle explain."

/-- The error for a batch with zero error-kind records (apostrophe of the
original literal elided). -/
def nothingToExplainMsg : String := "There do not seem to be any errors to send."

def scanPanicMsg : String := "parse i64 unwrap failed"

def decodePanicMsg : String := "ErrorLog try_new unwrap failed"

def emptyIterPanicMsg : String := "next on empty lines iterator"

/-- The shared backward-scan loop of `fetch_last_error_from_file` and of
`TryFrom<String> for ExplainStruct`, over the remaining lines in
most-recent-first order: stop at the first line whose timestamp differs from
`key`, keep the `error`-kind records, panic (modelled as `.error`) when a
scanned line fails to parse or decode. -/
def scanOlder (key : Int) : List String → Except String (List ErrorLog)
  | [] => .ok []
  | line :: rest =>
    match parseI64 (field0 line) with
    | none => .error scanPanicMsg
    | some t =>
      if t ≠ key then .ok []
      else
        match tryNew (splitFields line) with
        | .ok log =>
          match scanOlder key rest with
          | .ok tail => .ok (if log.error_type = "error" then log :: tail else tail)
          | .error m => .error m
        | .err _ => .error decodePanicMsg
        | .panic m => .error m

/-- Model of `ErrorLogManager::fetch_last_error_from_file`, as a function of
the list of log lines in file (append) order. The Rust function checks
`buf == String::new()` before splitting into lines; a buffer is empty exactly
when its line list is empty, so that check is the `[]` case here. The
filesystem set-up (auto-creating the file) is outside the extraction logic. -/
def fetchLastError (lines : List String) : FetchResult :=
  match lines.reverse with
  | [] => .err noLogsMsg
  | lastLine :: rest =>
    match tryNew (splitFields lastLine) with
    | .ok log =>
      match scanOlder log.datetime rest with
      | .ok tail =>
        let logs := (if log.error_type = "error" then [log] else []) ++ tail
        if logs.isEmpty then .err nothingToExplainMsg else .ok logs
      | .error m => .panic m
    | .err _ => .panic decodePanicMsg
    | .panic m => .panic m

/-- Model of `<ExplainStruct as TryFrom<String>>::try_from` (the `logs` field;
`file_contents` starts empty), as a function of the list of log lines in file
order. Unlike `fetchLastError` it pushes the most recent record without
checking its kind, and has no emptiness error. -/
def explainTryFrom (lines : List String) : FetchResult :=
  match lines.reverse with
  | [] => .panic emptyIterPanicMsg
  | lastLine :: rest =>
    match tryNew (splitFields lastLine) with
    | .ok log =>
      match scanOlder log.datetime rest with
      | .ok tail => .ok (log :: tail)
      | .error m => .panic m
    | .err _ => .panic decodePanicMsg
    | .panic m => .panic m

/-- Specification-side batch extraction, written from the claim wording (for
comparison with the code model): the timestamp of the last line is the batch
key, the contiguous run of most-recent-first lines with that timestamp is the
batch, only `error`-kind records are kept, in most-recent-first order. -/
def extractBatchSpec (lines : List String) : List ErrorLog :=
  match lines.reverse with
  | [] => []
  | lastLine :: _ =>
    match lineTs lastLine with
    | none => []
    | some key =>
      ((lines.reverse.takeWhile (fun l => decide (lineTs l = some key))).filterMap
        decodeLine).filter (fun log => decide (log.error_type = "error"))

/-- One referenced source file with its full text (`FileContents` in
`config.rs`); reading is delegated to the `readFile` collaborator. -/
structure FileContents where
  path : String
  contents : String
  deriving DecidableEq

def FileContents.new (readFile : String → String) (path : String) : FileContents :=
  { path := path, contents := readFile path }

def pathLe (a b : FileContents) : Prop := a.path ≤ b.path

instance : DecidableRel pathLe :=
  fun a b => inferInstanceAs (Decidable (a.path ≤ b.path))

instance : IsTotal FileContents pathLe :=
  ⟨fun a b => le_total a.path b.path⟩

instance : IsTrans FileContents pathLe :=
  ⟨fun _ _ _ h₁ h₂ => le_trans h₁ h₂⟩

/-- Model of `file_contents.sort_by(|a, b| a.path.partial_cmp(&b.path).unwrap())`
(String comparison is a total order, so the unwrap never fires). -/
def sortByPath (l : List FileContents) : List FileContents :=
  List.insertionSort pathLe l

/-- Model of `Vec::dedup_by_key(|key| key.path)` after the head element:
removes all but the first of each consecutive run of equal paths. -/
def dedupGo (prev : FileContents) : List FileContents → List FileContents
  | [] => []
  | b :: rest => if b.path = prev.path then dedupGo prev rest else b :: dedupGo b rest

def dedupByPath : List FileContents → List FileContents
  | [] => []
  | a :: rest => a :: dedupGo a rest

/-- Model of `ExplainStruct::fetch_file_contents_from_errlogs` (the computed
`file_contents`): keep records with a `file_source`, read each referenced
file, sort by path, then dedup consecutive equal paths. -/
def fetchFileContents (readFile : String → String) (logs : List ErrorLog) : List FileContents :=
  dedupByPath (sortByPath ((logs.filter (fun x => x.file_source.isSome)).map
    (fun x => FileContents.new readFile (x.file_source.getD ""))))

/-- Errors of API-key resolution, keeping the `anyhow` context chain apart:
an invalid environment value (context names `SHUTTLE_API_KEY`), an invalid
stored value (the parse error of the stored key), or no key at all (the login
hint). -/
inductive KeyError where
  | envInvalid (msg : String)
  | storedInvalid (msg : String)
  | noKey (hint : String)
  deriving DecidableEq

def loginHint : String := "No valid API key found, try logging in first with:\n\tcargo shuttle login"

/-- Model of `RequestContext::api_key`. `parse` is the external
`ApiKey::parse` validator of `shuttle_common` (a collaborator, taken as a
parameter); `envKey` is the `SHUTTLE_API_KEY` environment variable and
`storedKey` the `api_key` of the loaded `GlobalConfig`. -/
def resolveApiKey (parse : String → Except String String) (envKey : Option String)
    (storedKey : Option String) : Except KeyError String :=
  match envKey with
  | some k =>
    match parse k with
    | .ok key => .ok key
    | .error e => .error (KeyError.envInvalid e)
  | none =>
    match storedKey with
    | some k =>
      match parse k with
      | .ok key => .ok key
      | .error e => .error (KeyError.storedInvalid e)
    | none => .error (KeyError.noKey loginHint)

/-- `ProjectConfig` of `config.rs`. -/
structure ProjectConfig where
  name : Option String
  assets : Option (List String)
  deriving DecidableEq

def defaultProjectConfig : ProjectConfig := { name := none, assets := none }

/-- Model of `RequestContext::get_local_config`. `nameArg` is the
command-line `--name`; `stored` is the `ProjectConfig` loaded from
`Shuttle.toml` when the file exists (`none` models the absent file, which the
code replaces with the default config); `infer` is the external
`ProjectArgs::project_name` collaborator inferring the name from the crate or
workspace, whose failure propagates. -/
def getLocalConfig (nameArg : Option String) (stored : Option ProjectConfig)
    (infer : Except String String) : Except String ProjectConfig :=
  match nameArg, (stored.getD defaultProjectConfig).name with
  | some n, _ => .ok { stored.getD defaultProjectConfig with name := some n }
  | none, some _ => .ok (stored.getD defaultProjectConfig)
  | none, none =>
    match infer with
    | .ok n => .ok { stored.getD defaultProjectConfig with name := some n }
    | .error e => .error e

/-- Helper parse validator used by concrete witnesses: accepts exactly the
string "good". -/
def demoParse : String → Except String String :=
  fun s => if s = "good" then .ok "good" else .error "bad key"

/-! Helper lemmas about `tryNew` and decoding. -/

theorem tryNew_ok_spec {input : List String} {log : ErrorLog} (h : tryNew input = .ok log) :
    parseI64 (input.headD "") = some log.datetime ∧ log.raw = joinFields input ∧
      log.error_type = input.getD 1 "" := by
  unfold tryNew at h
  by_cases h0 : input.length = 0
  · rw [if_pos h0] at h
    exact absurd h (by simp)
  rw [if_neg h0] at h
  generalize hp : parseI64 (input.headD "") = p at h
  cases p with
  | none => exact absurd h (by simp)
  | some t =>
    dsimp only at h
    by_cases h1 : t < chronoMinTs ∨ chronoMaxTs < t
    · rw [if_pos h1] at h
      exact absurd h (by simp)
    rw [if_neg h1] at h
    by_cases h2 : input.length < 6
    · rw [if_pos h2] at h
      exact absurd h (by simp)
    rw [if_neg h2] at h
    by_cases h3 : u16Trap (input.getD 5 "") = true
    · rw [if_pos h3] at h
      exact absurd h (by simp)
    rw [if_neg h3] at h
    by_cases h4 : input.length < 7
    · rw [if_pos h4] at h
      exact absurd h (by simp)
    rw [if_neg h4] at h
    by_cases h5 : u16Trap (input.getD 6 "") = true
    · rw [if_pos h5] at h
      exact absurd h (by simp)
    rw [if_neg h5] at h
    injection h with h
    subst h
    exact ⟨rfl, rfl, rfl⟩

theorem exists_of_decodes {line : String} (h : decodes line = true) :
    ∃ log, tryNew (splitFields line) = .ok log := by
  unfold decodes decodeLine at h
  revert h
  split
  · intro _
    exact ⟨_, by assumption⟩
  · intro h
    simp at h

theorem decodeLine_of_ok {line : String} {log : ErrorLog}
    (h : tryNew (splitFields line) = .ok log) : decodeLine line = some log := by
  unfold decodeLine
  rw [h]

theorem lineTs_of_ok {line : String} {log : ErrorLog}
    (h : tryNew (splitFields line) = .ok log) : lineTs line = some log.datetime :=
  (tryNew_ok_spec h).1

/-! The `||`-split and `||`-join are mutually inverse in the direction the
round-trip claim needs: joining the split of any line gives the line back. -/

theorem consHead_ne_nil (c : Char) (l : List (List Char)) : consHead c l ≠ [] := by
  cases l <;> simp [consHead]

theorem splitPP_ne_nil (cs : List Char) : splitPP cs ≠ [] := by
  induction cs using splitPP.induct with
  | case1 => simp [splitPP]
  | case2 rest ih => simp [splitPP]
  | case3 c rest hne ih => exact fun h => consHead_ne_nil _ _ (by simpa [splitPP] using h)

theorem joinPP_consHead (c : Char) {l : List (List Char)} (h : l ≠ []) :
    joinPP (consHead c l) = c :: joinPP l := by
  match l with
  | [] => exact absurd rfl h
  | [f] => rfl
  | f :: g :: fs => simp [consHead, joinPP]

theorem joinPP_splitPP (cs : List Char) : joinPP (splitPP cs) = cs := by
  induction cs using splitPP.induct with
  | case1 => rfl
  | case2 rest ih =>
    obtain ⟨g, fs, hgf⟩ := List.exists_cons_of_ne_nil (splitPP_ne_nil rest)
    rw [splitPP.eq_2, hgf]
    show ([] : List Char) ++ '|' :: '|' :: joinPP (g :: fs) = '|' :: '|' :: rest
    rw [← hgf, ih]
    rfl
  | case3 c rest hne ih =>
    rw [splitPP.eq_3 c rest hne, joinPP_consHead c (splitPP_ne_nil rest), ih]

theorem joinFields_splitFields (s : String) : joinFields (splitFields s) = s := by
  unfold joinFields splitFields
  rw [List.map_map]
  have hid : (String.data ∘ fun cs => String.mk cs) = id := rfl
  rw [hid, List.map_id, joinPP_splitPP]

/-! The backward-scan loop agrees, on fully decodable input, with the
take-the-matching-run, decode, keep-errors description of the spec. -/

theorem scanOlder_eq_spec (key : Int) (rest : List String)
    (hdec : ∀ l ∈ rest, decodes l = true) :
    scanOlder key rest = .ok (((rest.takeWhile (fun l => decide (lineTs l = some key))).filterMap
      decodeLine).filter (fun log => decide (log.error_type = "error"))) := by
  induction rest with
  | nil => rfl
  | cons line rest ih =>
    have hline := hdec line (List.mem_cons_self line rest)
    obtain ⟨log, hlog⟩ := exists_of_decodes hline
    have hts : lineTs line = some log.datetime := lineTs_of_ok hlog
    have hscan : scanOlder key (line :: rest) =
        (if log.datetime ≠ key then .ok [] else
          match tryNew (splitFields line) with
          | .ok log =>
            match scanOlder key rest with
            | .ok tail => .ok (if log.error_type = "error" then log :: tail else tail)
            | .error m => .error m
          | .err _ => .error decodePanicMsg
          | .panic m => .error m) := by
      show (match parseI64 (field0 line) with
        | none => Except.error scanPanicMsg
        | some t => _) = _
      rw [show parseI64 (field0 line) = some log.datetime from hts]
    by_cases hk : log.datetime = key
    · rw [hscan, if_neg (by simpa using hk), hlog,
        ih (fun l hl => hdec l (List.mem_cons_of_mem _ hl))]
      have hpred : decide (lineTs line = some key) = true := by simp [hts, hk]
      rw [List.takeWhile_cons, hpred, if_pos rfl, List.filterMap_cons_some (decodeLine_of_ok hlog),
        List.filter_cons]
      by_cases he : log.error_type = "error" <;> simp [he]
    · rw [hscan, if_pos (by simpa using hk)]
      have hpred : decide (lineTs line = some key) = false := by
        simp only [hts, decide_eq_false_iff_not, Option.some.injEq]
        exact hk
      rw [List.takeWhile_cons, hpred]
      rfl

/-- On non-empty, fully decodable input, `fetch_last_error_from_file` returns
exactly the specification batch when it is non-empty, and the
nothing-to-explain error when it is empty. -/
theorem fetch_eq_general (lines : List String) (hne : lines ≠ [])
    (hdec : ∀ l ∈ lines, decodes l = true) :
    fetchLastError lines = if (extractBatchSpec lines).isEmpty then .err nothingToExplainMsg
      else .ok (extractBatchSpec lines) := by
  obtain ⟨L, rest, hrev⟩ :=
    List.exists_cons_of_ne_nil (by simpa using hne : lines.reverse ≠ [])
  have hLmem : L ∈ lines := by
    rw [← List.mem_reverse, hrev]
    exact List.mem_cons_self _ _
  obtain ⟨log, hlog⟩ := exists_of_decodes (hdec L hLmem)
  have hts : lineTs L = some log.datetime := lineTs_of_ok hlog
  have hrest : ∀ l ∈ rest, decodes l = true := fun l hl =>
    hdec l (by rw [← List.mem_reverse, hrev]; exact List.mem_cons_of_mem _ hl)
  have hspec : extractBatchSpec lines =
      (if log.error_type = "error" then [log] else []) ++
        (((rest.takeWhile (fun l => decide (lineTs l = some log.datetime))).filterMap
          decodeLine).filter (fun lg => decide (lg.error_type = "error"))) := by
    unfold extractBatchSpec
    rw [hrev]
    dsimp only
    rw [hts]
    dsimp only
    have hpred : decide (lineTs L = some log.datetime) = true := by simp [hts]
    rw [List.takeWhile_cons, hpred, if_pos rfl,
      List.filterMap_cons_some (decodeLine_of_ok hlog), List.filter_cons]
    by_cases he : log.error_type = "error" <;> simp [he]
  unfold fetchLastError
  rw [hrev]
  dsimp only
  rw [hlog]
  dsimp only
  rw [scanOlder_eq_spec _ _ hrest]
  dsimp only
  rw [hspec]

/-! Stepping lemmas for the backward scan, and shape lemmas for the two
extraction functions. -/

theorem scanOlder_cons_ne {key t : Int} {b : String} (hb : lineTs b = some t) (hne : t ≠ key)
    (rest : List String) : scanOlder key (b :: rest) = .ok [] := by
  show (match parseI64 (field0 b) with
    | none => Except.error scanPanicMsg
    | some t => _) = _
  rw [show parseI64 (field0 b) = some t from hb]
  dsimp only
  rw [if_pos hne]

theorem scanOlder_cons_eq {key : Int} {x : String} {log : ErrorLog}
    (hlog : tryNew (splitFields x) = .ok log) (hk : log.datetime = key) (rest : List String) :
    scanOlder key (x :: rest) =
      match scanOlder key rest with
      | .ok tail => .ok (if log.error_type = "error" then log :: tail else tail)
      | .error m => .error m := by
  show (match parseI64 (field0 x) with
    | none => Except.error scanPanicMsg
    | some t => _) = _
  rw [show parseI64 (field0 x) = some log.datetime from lineTs_of_ok hlog]
  dsimp only
  rw [if_neg (not_not_intro hk), hlog]

/-- Once the backward scan hits a line whose timestamp differs from the batch
key, everything older is never inspected; so the scan result does not depend
on what (possibly malformed) lines lie past the boundary. -/
theorem scanOlder_stops {key t : Int} {b : String} (hb : lineTs b = some t) (hne : t ≠ key)
    (xs : List String) (tail : List String)
    (hxs : ∀ l ∈ xs, decodes l = true ∧ lineTs l = some key) :
    scanOlder key (xs ++ b :: tail) = scanOlder key (xs ++ [b]) := by
  induction xs with
  | nil =>
    rw [List.nil_append, List.nil_append, scanOlder_cons_ne hb hne, scanOlder_cons_ne hb hne]
  | cons x xs ih =>
    obtain ⟨hdx, htx⟩ := hxs x (List.mem_cons_self x xs)
    obtain ⟨log, hlog⟩ := exists_of_decodes hdx
    have hk : log.datetime = key := by
      have := lineTs_of_ok hlog
      rw [this] at htx
      exact (Option.some.injEq _ _).mp htx
    rw [List.cons_append, List.cons_append, scanOlder_cons_eq hlog hk,
      scanOlder_cons_eq hlog hk, ih (fun l hl => hxs l (List.mem_cons_of_mem _ hl))]

theorem fetch_of_shape {lines : List String} {L : String} {rest : List String} {log : ErrorLog}
    {tail : List ErrorLog} (hrev : lines.reverse = L :: rest)
    (hlog : tryNew (splitFields L) = .ok log)
    (hscan : scanOlder log.datetime rest = .ok tail) :
    fetchLastError lines =
      if ((if log.error_type = "error" then [log] else []) ++ tail).isEmpty
        then .err nothingToExplainMsg
        else .ok ((if log.error_type = "error" then [log] else []) ++ tail) := by
  unfold fetchLastError
  rw [hrev]
  dsimp only
  rw [hlog]
  dsimp only
  rw [hscan]

theorem tryFrom_of_shape {lines : List String} {L : String} {rest : List String} {log : ErrorLog}
    {tail : List ErrorLog} (hrev : lines.reverse = L :: rest)
    (hlog : tryNew (splitFields L) = .ok log)
    (hscan : scanOlder log.datetime rest = .ok tail) :
    explainTryFrom lines = .ok (log :: tail) := by
  unfold explainTryFrom
  rw [hrev]
  dsimp only
  rw [hlog]
  dsimp only
  rw [hscan]

/-! Lemmas about consecutive-duplicate removal after sorting by path. -/

theorem dedupGo_cons (prev b : FileContents) (rest : List FileContents) :
    dedupGo prev (b :: rest) =
      if b.path = prev.path then dedupGo prev rest else b :: dedupGo b rest := rfl

theorem dedupGo_subset : ∀ (l : List FileContents) (prev x : FileContents),
    x ∈ dedupGo prev l → x ∈ l
  | [], _, _, h => by simp [dedupGo] at h
  | b :: rest, prev, x, h => by
    rw [dedupGo_cons] at h
    by_cases hb : b.path = prev.path
    · rw [if_pos hb] at h
      exact List.mem_cons_of_mem _ (dedupGo_subset rest prev x h)
    · rw [if_neg hb] at h
      rcases List.mem_cons.mp h with h | h
      · exact h ▸ List.mem_cons_self _ _
      · exact List.mem_cons_of_mem _ (dedupGo_subset rest b x h)

theorem dedupGo_pairwise : ∀ (l : List FileContents) (prev : FileContents),
    List.Sorted pathLe (prev :: l) →
      List.Pairwise (fun a b => a.path < b.path) (prev :: dedupGo prev l)
  | [], prev, _ => by simp [dedupGo]
  | b :: rest, prev, h => by
    have hpb : pathLe prev b := (List.sorted_cons.mp h).1 b (List.mem_cons_self _ _)
    have hsr : List.Sorted pathLe (b :: rest) := (List.sorted_cons.mp h).2
    rw [dedupGo_cons]
    by_cases hb : b.path = prev.path
    · rw [if_pos hb]
      apply dedupGo_pairwise rest prev
      rw [List.sorted_cons]
      refine ⟨fun c hc => ?_, (List.sorted_cons.mp hsr).2⟩
      have hbc : pathLe b c := (List.sorted_cons.mp hsr).1 c hc
      show prev.path ≤ c.path
      rw [← hb]
      exact hbc
    · rw [if_neg hb]
      have hlt : prev.path < b.path := lt_of_le_of_ne hpb (fun he => hb he.symm)
      have hrec := dedupGo_pairwise rest b hsr
      rw [List.pairwise_cons]
      refine ⟨fun c hc => ?_, hrec⟩
      rcases List.mem_cons.mp hc with rfl | hc
      · exact hlt
      · exact lt_of_lt_of_le hlt ((List.sorted_cons.mp hsr).1 c (dedupGo_subset rest b c hc))

theorem dedupGo_path_mem : ∀ (l : List FileContents) (prev x : FileContents), x ∈ l →
    ∃ y ∈ prev :: dedupGo prev l, y.path = x.path
  | [], _, _, h => absurd h (List.not_mem_nil _)
  | b :: rest, prev, x, h => by
    rw [dedupGo_cons]
    by_cases hb : b.path = prev.path
    · rw [if_pos hb]
      rcases List.mem_cons.mp h with rfl | h
      · exact ⟨prev, List.mem_cons_self _ _, hb.symm⟩
      · exact dedupGo_path_mem rest prev x h
    · rw [if_neg hb]
      rcases List.mem_cons.mp h with rfl | h
      · exact ⟨x, List.mem_cons_of_mem _ (List.mem_cons_self _ _), rfl⟩
      · obtain ⟨y, hy, hyp⟩ := dedupGo_path_mem rest b x h
        rcases List.mem_cons.mp hy with rfl | hy
        · exact ⟨y, List.mem_cons_of_mem _ (List.mem_cons_self _ _), hyp⟩
        · exact ⟨y, List.mem_cons_of_mem _ (List.mem_cons_of_mem _ hy), hyp⟩

theorem dedupByPath_pairwise {l : List FileContents} (h : List.Sorted pathLe l) :
    List.Pairwise (fun a b => a.path < b.path) (dedupByPath l) := by
  match l with
  | [] => simp [dedupByPath]
  | a :: rest => exact dedupGo_pairwise rest a h

theorem dedupByPath_subset {l : List FileContents} {x : FileContents}
    (h : x ∈ dedupByPath l) : x ∈ l := by
  match l with
  | [] => simp [dedupByPath] at h
  | a :: rest =>
    rcases List.mem_cons.mp h with rfl | h
    · exact List.mem_cons_self _ _
    · exact List.mem_cons_of_mem _ (dedupGo_subset rest a x h)

theorem dedupByPath_path_mem {l : List FileContents} {x : FileContents} (h : x ∈ l) :
    ∃ y ∈ dedupByPath l, y.path = x.path := by
  match l with
  | [] => exact absurd h (List.not_mem_nil _)
  | a :: rest =>
    rcases List.mem_cons.mp h with rfl | h
    · exact ⟨x, List.mem_cons_self _ _, rfl⟩
    · exact dedupGo_path_mem rest a x h

/-! Claim theorems. -/

/-- Claim C1: `resolve_api_key` follows a strict override chain. When the
`SHUTTLE_API_KEY` environment value is set and parses, it is returned; when it
is set but malformed, the result is the hard error naming the environment
variable — for every stored key, valid or not, so there is no silent fallback;
when it is unset, a present stored key is parsed and returned (or its parse
error surfaces); with neither key, the result is the no-key error carrying
the login hint. -/
theorem c1_api_key_strict_override (parse : String → Except String String)
    (envKey storedKey : Option String) :
    (∀ v k, envKey = some v → parse v = .ok k →
      resolveApiKey parse envKey storedKey = .ok k) ∧
    (∀ v e, envKey = some v → parse v = .error e →
      resolveApiKey parse envKey storedKey = .error (KeyError.envInvalid e)) ∧
    (∀ s k, envKey = none → storedKey = some s → parse s = .ok k →
      resolveApiKey parse envKey storedKey = .ok k) ∧
    (∀ s e, envKey = none → storedKey = some s → parse s = .error e →
      resolveApiKey parse envKey storedKey = .error (KeyError.storedInvalid e)) ∧
    (envKey = none → storedKey = none →
      resolveApiKey parse envKey storedKey = .error (KeyError.noKey loginHint)) := by
  refine ⟨?_, ?_, ?_, ?_, ?_⟩
  · intro v k hv hp
    subst hv
    unfold resolveApiKey
    dsimp only
    rw [hp]
  · intro v e hv hp
    subst hv
    unfold resolveApiKey
    dsimp only
    rw [hp]
  · intro s k hv hs hp
    subst hv
    subst hs
    unfold resolveApiKey
    dsimp only
    rw [hp]
  · intro s e hv hs hp
    subst hv
    subst hs
    unfold resolveApiKey
    dsimp only
    rw [hp]
  · intro hv hs
    subst hv
    subst hs
    rfl

/-- Witness for C1 at concrete inputs: a malformed environment value loses to
nobody even though a valid stored key exists; an unset environment falls back
to the stored key; with neither, the login-hint error results. -/
theorem c1_api_key_strict_override_witness :
    resolveApiKey demoParse (some "bad") (some "good") = .error (KeyError.envInvalid "bad key") ∧
    resolveApiKey demoParse none (some "good") = .ok "good" ∧
    resolveApiKey demoParse none none = .error (KeyError.noKey loginHint) :=
  ⟨(c1_api_key_strict_override demoParse (some "bad") (some "good")).2.1 "bad" "bad key" rfl rfl,
   (c1_api_key_strict_override demoParse none (some "good")).2.2.1 "good" "good" rfl rfl rfl,
   (c1_api_key_strict_override demoParse none none).2.2.2.2 rfl rfl⟩

/-- Claim C7: project-name resolution precedence. A caller-supplied name
always wins and is written into the in-memory settings; otherwise a name
already stored in the loaded settings is kept unchanged; otherwise the name
is inferred from the project-identity collaborator, whose failure propagates;
and every successful resolution leaves the in-memory name populated. -/
theorem c7_project_name_precedence (stored : Option ProjectConfig)
    (infer : Except String String) :
    (∀ n, getLocalConfig (some n) stored infer =
      .ok { stored.getD defaultProjectConfig with name := some n }) ∧
    (∀ c m, stored = some c → c.name = some m →
      getLocalConfig none stored infer = .ok c) ∧
    (∀ e, (stored.getD defaultProjectConfig).name = none → infer = .error e →
      getLocalConfig none stored infer = .error e) ∧
    (∀ n, (stored.getD defaultProjectConfig).name = none → infer = .ok n →
      getLocalConfig none stored infer =
        .ok { stored.getD defaultProjectConfig with name := some n }) ∧
    (∀ nameArg c, getLocalConfig nameArg stored infer = .ok c → c.name.isSome = true) := by
  refine ⟨?_, ?_, ?_, ?_, ?_⟩
  · intro n
    rfl
  · intro c m hs hm
    subst hs
    unfold getLocalConfig
    simp only [Option.getD_some]
    rw [hm]
  · intro e hn hi
    subst hi
    unfold getLocalConfig
    rw [hn]
  · intro n hn hi
    subst hi
    unfold getLocalConfig
    rw [hn]
  · intro nameArg c h
    unfold getLocalConfig at h
    cases nameArg with
    | some n =>
      dsimp only at h
      injection h with h
      subst h
      rfl
    | none =>
      cases hcn : (stored.getD defaultProjectConfig).name with
      | some m =>
        rw [hcn] at h
        dsimp only at h
        injection h with h
        subst h
        rw [hcn]
        rfl
      | none =>
        rw [hcn] at h
        dsimp only at h
        cases hi : infer with
        | ok n =>
          rw [hi] at h
          dsimp only at h
          injection h with h
          subst h
          rfl
        | error e =>
          rw [hi] at h
          exact absurd h (by simp)

/-- Witness for C7 at concrete inputs: an explicit name overrides a stored
name; a stored name survives; inference failure propagates. -/
theorem c7_project_name_precedence_witness :
    getLocalConfig (some "cli") (some { name := some "toml", assets := none })
        (Except.error "no manifest") =
      .ok { name := some "cli", assets := none } ∧
    getLocalConfig none (some { name := some "toml", assets := none })
        (Except.error "no manifest") =
      .ok { name := some "toml", assets := none } ∧
    getLocalConfig none none (Except.error "no manifest") = .error "no manifest" :=
  ⟨(c7_project_name_precedence (some { name := some "toml", assets := none })
      (Except.error "no manifest")).1 "cli",
   (c7_project_name_precedence (some { name := some "toml", assets := none })
      (Except.error "no manifest")).2.1 { name := some "toml", assets := none } "toml" rfl rfl,
   (c7_project_name_precedence none (Except.error "no manifest")).2.2.1 "no manifest" rfl rfl⟩

/-- Claim C8: for a well-formed 7-field line, decoding and re-encoding via
`raw` is the identity: `raw` is the `||`-join of the split fields, and joining
the split of a line always reproduces the line byte for byte. -/
theorem c8_raw_round_trip (line : String) (log : ErrorLog)
    (_h7 : (splitFields line).length = 7)
    (hok : tryNew (splitFields line) = .ok log) : log.raw = line := by
  rw [(tryNew_ok_spec hok).2.1, joinFields_splitFields]

/-- Witness for C8 at a concrete well-formed 7-field line. -/
theorem c8_raw_round_trip_witness :
    (splitFields "1724950779||error||none||m||none||10||60").length = 7 ∧
    tryNew (splitFields "1724950779||error||none||m||none||10||60") = .ok
      { raw := "1724950779||error||none||m||none||10||60", datetime := 1724950779,
        error_type := "error", error_code := none, error_message := "m",
        file_source := none, file_line := some 10, file_col := some 60 } ∧
    ErrorLog.raw
      { raw := "1724950779||error||none||m||none||10||60", datetime := 1724950779,
        error_type := "error", error_code := none, error_message := "m",
        file_source := none, file_line := some 10, file_col := some 60 } =
      "1724950779||error||none||m||none||10||60" :=
  ⟨by decide, by decide,
   c8_raw_round_trip "1724950779||error||none||m||none||10||60" _ (by decide) (by decide)⟩

/-- Claim C5 (code-bug evaluation): the claim says fields [5] and [6] can
never make the record decode fail or panic, but a 7-field input whose field
[5] parses as `i64` and not as `u16` (here `-1`) makes `try_new` panic on the
`parse::<u16>().unwrap()` guarded only by an `i64` parse check. -/
theorem c5_line_col_unwrap_panic :
    tryNew ["1724950779", "error", "none", "msg", "none", "-1", "2"] = .panic u16PanicMsg ∧
    (parseI64 "-1").isSome = true ∧ (parseU16 "-1").isNone = true := by decide

/-- Claim C2: for a log text whose lines all decode, extraction takes the
last line's timestamp as the batch key, scans backward through the contiguous
run of lines with that timestamp (stopping at the first differing timestamp),
keeps exactly the `error`-kind records of the run — per record, so an earlier
error at the batch timestamp survives a warning on the very last line — and
returns them most-recent-first. `extractBatchSpec` is that description
verbatim over the reversed (most-recent-first) lines; the non-empty-batch
hypothesis matches the claim's successful return, the empty-batch case being
the distinct error of C6. -/
theorem c2_batch_extraction (lines : List String) (hne : lines ≠ [])
    (hdec : ∀ l ∈ lines, decodes l = true)
    (hkept : extractBatchSpec lines ≠ []) :
    fetchLastError lines = .ok (extractBatchSpec lines) := by
  rw [fetch_eq_general lines hne hdec, if_neg (by simpa using hkept)]

/-- Witness for C2 at a concrete log whose last line is a warning sharing the
batch timestamp with an earlier error: the earlier error is kept, the warning
is not. -/
theorem c2_batch_extraction_witness :
    fetchLastError ["5||error||none||a||none||1||1", "5||warning||none||b||none||1||1"] =
      .ok (extractBatchSpec
        ["5||error||none||a||none||1||1", "5||warning||none||b||none||1||1"]) ∧
    extractBatchSpec ["5||error||none||a||none||1||1", "5||warning||none||b||none||1||1"] =
      [{ raw := "5||error||none||a||none||1||1", datetime := 5, error_type := "error",
         error_code := none, error_message := "a", file_source := none,
         file_line := some 1, file_col := some 1 }] :=
  ⟨c2_batch_extraction _ (by decide) (by decide) (by decide), by decide⟩

/-- Claim C6: the two empty cases carry distinct errors. Wholly empty log
content yields the no-logs-recorded-yet guidance error; non-empty decodable
content whose extracted batch has zero error-kind records yields the distinct
nothing-to-explain error; and the two messages differ. -/
theorem c6_two_empty_cases_distinct :
    fetchLastError [] = .err noLogsMsg ∧
    noLogsMsg ≠ nothingToExplainMsg ∧
    (∀ lines, lines ≠ [] → (∀ l ∈ lines, decodes l = true) → extractBatchSpec lines = [] →
      fetchLastError lines = .err nothingToExplainMsg) := by
  refine ⟨rfl, by decide, fun lines hne hdec hk => ?_⟩
  rw [fetch_eq_general lines hne hdec, if_pos (by simp [hk])]

/-- Witness for C6 at a concrete non-empty log with only a warning at the
latest timestamp. -/
theorem c6_two_empty_cases_distinct_witness :
    fetchLastError ["7||warning||none||w||none||1||1"] = .err nothingToExplainMsg :=
  c6_two_empty_cases_distinct.2.2 _ (by decide) (by decide) (by decide)

/-- Claim C3 counterexample: on a decodable log whose last line is a warning
sharing the batch timestamp with an earlier error, the `TryFrom<String>`
conversion keeps the warning record (the most recent record is pushed without
a kind check) while `fetch_last_error_from_file` filters it out — so the two
embeddings disagree, and warning-kind records are not always excluded by
both. -/
theorem c3_refinement_counterexample :
    explainTryFrom ["1||error||none||a||none||1||1", "1||warning||none||b||none||1||1"] ≠
      fetchLastError ["1||error||none||a||none||1||1", "1||warning||none||b||none||1||1"] ∧
    explainTryFrom ["1||error||none||a||none||1||1", "1||warning||none||b||none||1||1"] =
      .ok [{ raw := "1||warning||none||b||none||1||1", datetime := 1, error_type := "warning",
             error_code := none, error_message := "b", file_source := none,
             file_line := some 1, file_col := some 1 },
           { raw := "1||error||none||a||none||1||1", datetime := 1, error_type := "error",
             error_code := none, error_message := "a", file_source := none,
             file_line := some 1, file_col := some 1 }] := by decide

/-- Claim C3 amended: the two embeddings agree whenever the last line of the
decodable log text decodes to an `error`-kind record (the only divergence is
the unconditional push of the most recent record in `TryFrom<String>`, which
shows when the last line is of another kind, such as a warning). -/
theorem c3_amended_agree_when_last_is_error (lines : List String) (L : String)
    (rest : List String) (log : ErrorLog) (hrev : lines.reverse = L :: rest)
    (hdec : ∀ l ∈ lines, decodes l = true)
    (hlog : tryNew (splitFields L) = .ok log)
    (hkind : log.error_type = "error") :
    explainTryFrom lines = fetchLastError lines := by
  have hrest : ∀ l ∈ rest, decodes l = true := fun l hl =>
    hdec l (by rw [← List.mem_reverse, hrev]; exact List.mem_cons_of_mem _ hl)
  have hscan := scanOlder_eq_spec log.datetime rest hrest
  rw [tryFrom_of_shape hrev hlog hscan, fetch_of_shape hrev hlog hscan]
  simp [hkind]

/-- Witness for the amended C3 at a concrete log whose last line is an
error-kind record. -/
theorem c3_amended_agree_when_last_is_error_witness :
    explainTryFrom ["1||warning||none||b||none||1||1", "1||error||none||a||none||1||1"] =
      fetchLastError ["1||warning||none||b||none||1||1", "1||error||none||a||none||1||1"] :=
  c3_amended_agree_when_last_is_error
    ["1||warning||none||b||none||1||1", "1||error||none||a||none||1||1"]
    "1||error||none||a||none||1||1" ["1||warning||none||b||none||1||1"]
    { raw := "1||error||none||a||none||1||1", datetime := 1, error_type := "error",
      error_code := none, error_message := "a", file_source := none,
      file_line := some 1, file_col := some 1 }
    (by decide) (by decide) (by decide) (by decide)

/-- Claim C4 counterexample: a log consisting of one malformed line (its
timestamp field does not parse) makes the whole extraction panic via the
`.unwrap()` on `try_new` — it neither returns a batch nor reports one of the
two emptiness errors, so a decode failure in the scanned region is not
isolated to its line. -/
theorem c4_isolation_counterexample :
    fetchLastError ["oops"] = .panic decodePanicMsg := by decide

/-- Claim C4 amended: a malformed line is harmless exactly when the backward
scan never reaches it. Lines strictly older than the boundary line (the first
line whose timestamp differs from the batch key) are never inspected, so any
content there — malformed or not — leaves the extraction result unchanged;
a line that fails to decode within the scanned region aborts the whole
extraction with a panic (see the counterexample), unlike settings files where
a decode failure is a returned error. -/
theorem c4_amended_unscanned_lines_ignored (older : List String) (boundary : String)
    (run : List String) (key t : Int) (hrun : run ≠ [])
    (hdec : ∀ l ∈ run, decodes l = true)
    (hkey : ∀ l ∈ run, lineTs l = some key)
    (hb : lineTs boundary = some t) (hnekey : t ≠ key) :
    fetchLastError (older ++ boundary :: run) = fetchLastError (boundary :: run) := by
  obtain ⟨L, rs, hrev⟩ :=
    List.exists_cons_of_ne_nil (by simpa using hrun : run.reverse ≠ [])
  have hLrun : L ∈ run := by
    rw [← List.mem_reverse, hrev]
    exact List.mem_cons_self _ _
  obtain ⟨log, hlog⟩ := exists_of_decodes (hdec L hLrun)
  have hkeyL : log.datetime = key := by
    have h1 := lineTs_of_ok hlog
    have h2 := hkey L hLrun
    rw [h1] at h2
    exact (Option.some.injEq _ _).mp h2
  have hrs : ∀ l ∈ rs, decodes l = true ∧ lineTs l = some key := fun l hl => by
    have hmem : l ∈ run := by
      rw [← List.mem_reverse, hrev]
      exact List.mem_cons_of_mem _ hl
    exact ⟨hdec l hmem, hkey l hmem⟩
  have hrev1 : (older ++ boundary :: run).reverse = L :: (rs ++ boundary :: older.reverse) := by
    rw [List.reverse_append, List.reverse_cons, hrev]
    simp
  have hrev2 : (boundary :: run).reverse = L :: (rs ++ [boundary]) := by
    rw [List.reverse_cons, hrev]
    simp
  have hstop := scanOlder_stops hb hnekey rs older.reverse hrs
  unfold fetchLastError
  rw [hrev1, hrev2]
  dsimp only
  rw [hlog]
  dsimp only
  rw [hkeyL, hstop]

/-- Witness for the amended C4 at a concrete log: a garbage line older than
the boundary changes nothing. -/
theorem c4_amended_unscanned_lines_ignored_witness :
    fetchLastError
        (["garbage"] ++ "3||error||none||x||none||1||1" :: ["5||error||none||y||none||1||1"]) =
      fetchLastError ("3||error||none||x||none||1||1" :: ["5||error||none||y||none||1||1"]) :=
  c4_amended_unscanned_lines_ignored ["garbage"] "3||error||none||x||none||1||1"
    ["5||error||none||y||none||1||1"] 5 3 (by decide) (by decide) (by decide) (by decide)
    (by decide)

/-- Claim C9: explanation assembly collects the non-empty `source_file`
values of the batch, and the resulting excerpt list is sorted by path, has no
path twice, and contains a path exactly when some record of the batch points
at it — so two records with the same `source_file` yield exactly one excerpt. -/
theorem c9_excerpts_dedup_sorted (readFile : String → String) (logs : List ErrorLog) :
    List.Sorted (fun p q : String => p ≤ q)
      ((fetchFileContents readFile logs).map FileContents.path) ∧
    ((fetchFileContents readFile logs).map FileContents.path).Nodup ∧
    (∀ p, p ∈ (fetchFileContents readFile logs).map FileContents.path ↔
      ∃ log ∈ logs, log.file_source = some p) := by
  have hsorted : List.Sorted pathLe (sortByPath ((logs.filter
      (fun x => x.file_source.isSome)).map
      (fun x => FileContents.new readFile (x.file_source.getD "")))) :=
    List.sorted_insertionSort pathLe _
  have hperm := List.perm_insertionSort pathLe ((logs.filter
    (fun x => x.file_source.isSome)).map
    (fun x => FileContents.new readFile (x.file_source.getD "")))
  have hpw : List.Pairwise (fun a b : FileContents => a.path < b.path)
      (fetchFileContents readFile logs) :=
    dedupByPath_pairwise hsorted
  refine ⟨?_, ?_, ?_⟩
  · exact List.Pairwise.map _ (fun a b h => le_of_lt h) hpw
  · exact List.Pairwise.map _ (fun a b (h : a.path < b.path) => ne_of_lt h) hpw
  · intro p
    rw [List.mem_map]
    constructor
    · rintro ⟨y, hy, rfl⟩
      have hyfc := hperm.mem_iff.mp (dedupByPath_subset hy)
      obtain ⟨x, hx, rfl⟩ := List.mem_map.mp hyfc
      have hxl := List.mem_filter.mp hx
      obtain ⟨v, hv⟩ := Option.isSome_iff_exists.mp (by simpa using hxl.2)
      exact ⟨x, hxl.1, by simp [FileContents.new, hv]⟩
    · rintro ⟨lg, hlg, hsrc⟩
      have hxf : lg ∈ logs.filter (fun x => x.file_source.isSome) :=
        List.mem_filter.mpr ⟨hlg, by simp [hsrc]⟩
      have hmem : FileContents.new readFile (lg.file_source.getD "") ∈
          (logs.filter (fun x => x.file_source.isSome)).map
            (fun x => FileContents.new readFile (x.file_source.getD "")) :=
        List.mem_map_of_mem _ hxf
      obtain ⟨y, hy, hyp⟩ := dedupByPath_path_mem (hperm.mem_iff.mpr hmem)
      exact ⟨y, hy, by rw [hyp]; simp [FileContents.new, hsrc]⟩

/-- Claim C10 counterexample: the claimed precondition for `try_new` being
panic-free (at least 7 fields, and a datetime-representable timestamp) is
satisfied by this input, yet `try_new` panics — field [6] parses as `i64` but
overflows `u16`, a panic mode the claim omits. -/
theorem c10_totality_counterexample :
    (tryNew ["0", "error", "none", "msg", "none", "1", "99999"]).isPanic = true ∧
    (["0", "error", "none", "msg", "none", "1", "99999"] : List String).length = 7 ∧
    parseI64 "0" = some 0 ∧ chronoMinTs ≤ 0 ∧ (0 : Int) ≤ chronoMaxTs := by decide

/-- Claim C10 amended: `try_new` panics exactly when the input is empty, or
its field [0] parses as `i64` and one of the following holds: the timestamp
is outside the datetime-representable range (`from_timestamp(..).unwrap()`),
the vector has fewer than 7 fields (index out of bounds), or field [5] or [6]
parses as `i64` but overflows `u16` (the `parse::<u16>().unwrap()` — the case
missing from the claimed precondition). In every other case it returns `Ok`
or a decode error. -/
theorem c10_amended_panic_characterization (input : List String) :
    (tryNew input).isPanic = true ↔
      (input.length = 0 ∨ ∃ t, parseI64 (input.headD "") = some t ∧
        (t < chronoMinTs ∨ chronoMaxTs < t ∨ input.length < 7 ∨
          u16Trap (input.getD 5 "") = true ∨ u16Trap (input.getD 6 "") = true)) := by
  unfold tryNew
  by_cases h0 : input.length = 0
  · simp [h0, TryNewResult.isPanic]
  rw [if_neg h0]
  cases hp : parseI64 (input.headD "") with
  | none => simp [TryNewResult.isPanic, h0]
  | some t =>
    dsimp only
    by_cases h1 : t < chronoMinTs ∨ chronoMaxTs < t
    · rw [if_pos h1]
      refine iff_of_true rfl (Or.inr ⟨t, rfl, ?_⟩)
      rcases h1 with h1 | h1
      · exact Or.inl h1
      · exact Or.inr (Or.inl h1)
    rw [if_neg h1]
    by_cases h2 : input.length < 6
    · rw [if_pos h2]
      exact iff_of_true rfl (Or.inr ⟨t, rfl, Or.inr (Or.inr (Or.inl (by omega)))⟩)
    rw [if_neg h2]
    by_cases h3 : u16Trap (input.getD 5 "") = true
    · rw [if_pos h3]
      exact iff_of_true rfl (Or.inr ⟨t, rfl, Or.inr (Or.inr (Or.inr (Or.inl h3)))⟩)
    rw [if_neg h3]
    by_cases h4 : input.length < 7
    · rw [if_pos h4]
      exact iff_of_true rfl (Or.inr ⟨t, rfl, Or.inr (Or.inr (Or.inl h4))⟩)
    rw [if_neg h4]
    by_cases h5 : u16Trap (input.getD 6 "") = true
    · rw [if_pos h5]
      exact iff_of_true rfl (Or.inr ⟨t, rfl, Or.inr (Or.inr (Or.inr (Or.inr h5)))⟩)
    rw [if_neg h5]
    refine iff_of_false (by simp [TryNewResult.isPanic]) ?_
    rintro (hlen | ⟨t2, ht2, hc⟩)
    · exact h0 hlen
    · have ht : t2 = t := by
        injection ht2.symm
      subst ht
      rcases hc with hc | hc | hc | hc | hc
      · exact h1 (Or.inl hc)
      · exact h1 (Or.inr hc)
      · exact h4 hc
      · exact h3 hc
      · exact h5 hc

end Spec2Proof
